import Mathlib

/-!
Shallow embedding of the LGCA (HPP lattice gas) simulator, translated from
the repository sources `src/lgca/src/main.rs` and `src/lgca/src/lgca.rs`
(the final variant of the design; the earlier snapshot under `src/src/` is
superseded by it).  Machine integers (`u8`, `usize`, `isize`) are modelled
as `Nat` / `Int`; the only place a `u8` cast can truncate is the `as u8`
in `block_colour_density_bw`, modelled as `% 256`.  Rust panics (vector
indexing, `assert!`) are modelled with `Option`: `none` is a panic.
Randomness (`thread_rng` in `fill_region`) is modelled by an explicit
oracle argument supplying the four Bernoulli draws per cell.
-/

namespace LGCA

/-- Bit constants from `mod cell` in `src/lgca/src/lgca.rs`. -/
def cell.FULL : Nat := 0b00001111

def cell.UP : Nat := 0b00001000

def cell.RIGHT : Nat := 0b00000100

def cell.DOWN : Nat := 0b00000010

def cell.LEFT : Nat := 0b00000001

def cell.EMPTY : Nat := 0b00000000

def cell.BOUNDARY : Nat := 0b00010000

/-- The two colouring policies (`enum Colouring`). -/
inductive Colouring where
  | DensityBW : Colouring
  | VelocityColour : Colouring
deriving DecidableEq

/-- Run configuration (`struct Config`). -/
structure Config where
  width : Nat
  height : Nat
  downscale : Nat
  iterations : Nat
  frameskip : Nat
  colouring : Colouring
deriving DecidableEq

/-- Constructor `Config::new`. -/
def Config.new (width height downscale iterations frameskip : Nat)
    (colouring : Colouring) : Config :=
  ⟨width, height, downscale, iterations, frameskip, colouring⟩

/-- An RGB triple (`struct RGB8`); each field is a `u8` value. -/
structure RGB8 where
  red : Nat
  green : Nat
  blue : Nat
deriving DecidableEq

/-- Constructor `RGB8::new`. -/
def RGB8.new (red green blue : Nat) : RGB8 := ⟨red, green, blue⟩

/-- Constant `RGB8::BLACK`. -/
def RGB8.BLACK : RGB8 := RGB8.new 0 0 0

/-- Constant `RGB8::BOUNDARY`. -/
def RGB8.BOUNDARY : RGB8 := RGB8.new 0 0 0

/-- Method `RGB8::as_array`, as a list of the three channel bytes. -/
def RGB8.as_array (c : RGB8) : List Nat := [c.red, c.green, c.blue]

/-- The grid (`struct Grid`): a flat vector of cells plus dimensions. -/
structure Grid where
  grid : List Nat
  width : Nat
  height : Nat
deriving DecidableEq

/-- Representation invariant of `Grid`: the backing vector has exactly
`width * height` entries.  `Grid::new` establishes it and every operation
preserves it; Rust relies on it for the indexing in `get`/`set` not to
panic. -/
def Grid.WF (g : Grid) : Prop := g.grid.length = g.width * g.height

instance (g : Grid) : Decidable g.WF := by
  unfold Grid.WF; infer_instance

/-- Constructor `Grid::new`: a `width`×`height` grid of `EMPTY` cells. -/
def Grid.new (width height : Nat) : Grid :=
  ⟨List.replicate (width * height) cell.EMPTY, width, height⟩

/-- The out-of-range test of `Grid::get` / the negation of the assertion of
`Grid::set`: `(x < 0) || (x as usize >= width) || (y < 0) || (y as usize >= height)`. -/
def Grid.outOfRange (g : Grid) (x y : Int) : Prop :=
  x < 0 ∨ (g.width : Int) ≤ x ∨ y < 0 ∨ (g.height : Int) ≤ y

instance (g : Grid) (x y : Int) : Decidable (g.outOfRange x y) := by
  unfold Grid.outOfRange; infer_instance

/-- Method `Grid::get` with the vector indexing made explicit as an
`Option` (`none` would be the out-of-bounds panic, impossible under
`Grid.WF`): out-of-range coordinates yield the synthetic boundary cell,
in-range coordinates read index `y * width + x` of the backing vector. -/
def Grid.get? (g : Grid) (x y : Int) : Option Nat :=
  if g.outOfRange x y then some cell.BOUNDARY
  else g.grid.get? (y.toNat * g.width + x.toNat)

/-- Method `Grid::get` as a total function: under `Grid.WF` the in-range
read always hits the backing vector (`Grid.get?` is `some`), so the
default value of `getD` is never produced. -/
def Grid.get (g : Grid) (x y : Int) : Nat :=
  if g.outOfRange x y then cell.BOUNDARY
  else g.grid.getD (y.toNat * g.width + x.toNat) cell.EMPTY

/-- Method `Grid::set`: the `assert!` of the Rust source is the `none`
branch (a panic); in range, index `y * width + x` is overwritten. -/
def Grid.set? (g : Grid) (x y : Int) (value : Nat) : Option Grid :=
  if g.outOfRange x y then none
  else some ⟨g.grid.set (y.toNat * g.width + x.toNat) value, g.width, g.height⟩

/-- Coordinates visited by the nested loops of `fill_boundary` /
`fill_region`: `y` in `y_min..y_min+height` outer, `x` in
`x_min..x_min+width` inner. -/
def rectCoords (x_min y_min : Int) (width height : Nat) : List (Int × Int) :=
  (List.range height).flatMap fun j =>
    (List.range width).map fun i => (x_min + (i : Int), y_min + (j : Int))

/-- Method `Grid::fill_boundary`: writes `cell::BOUNDARY` over a
rectangle; each write can panic (`none`) if out of range. -/
def Grid.fill_boundary (g : Grid) (x_min y_min : Int) (width height : Nat) :
    Option Grid :=
  (rectCoords x_min y_min width height).foldlM
    (fun gr c => gr.set? c.1 c.2 cell.BOUNDARY) g

/-- Method `Grid::fill_region`.  The four independent Bernoulli draws per
cell (`rng.gen_bool(probability)` for n, s, e, w) are supplied by the
oracle `draw`; the written value packs them as `n<<3 | s<<2 | e<<1 | w`,
exactly as the source does. -/
def Grid.fill_region (g : Grid) (x_min y_min : Int) (width height : Nat)
    (draw : Int → Int → Bool × Bool × Bool × Bool) : Option Grid :=
  (rectCoords x_min y_min width height).foldlM
    (fun gr c =>
      let d := draw c.1 c.2
      gr.set? c.1 c.2
        ((d.1.toNat <<< 3) ||| (d.2.1.toNat <<< 2) ||| (d.2.2.1.toNat <<< 1) |||
          d.2.2.2.toNat)) g

/-- Method `Grid::set_boundary_at_edge`: paints the four one-cell-thick
edges of the domain, in the order of the source. -/
def Grid.set_boundary_at_edge (g : Grid) (config : Config) : Option Grid :=
  (g.fill_boundary 0 0 1 config.height).bind fun g1 =>
    (g1.fill_boundary 0 0 config.width 1).bind fun g2 =>
      (g2.fill_boundary 0 ((config.height : Int) - 1) config.width 1).bind fun g3 =>
        g3.fill_boundary ((config.width : Int) - 1) 0 1 config.height

/-- Function `resolve_collisions` from `src/lgca/src/main.rs`: head-on
collision swap for fluid cells, bounce-back reflection for boundary
cells. -/
def resolve_collisions (cell_value : Nat) : Nat :=
  if cell_value &&& cell.BOUNDARY = 0 then
    if cell_value = 0b0101 then 0b1010
    else if cell_value = 0b1010 then 0b0101
    else cell_value
  else
    let up := cell_value &&& cell.UP
    let right := cell_value &&& cell.RIGHT
    let down := cell_value &&& cell.DOWN
    let left := cell_value &&& cell.LEFT
    up >>> 2 ||| right >>> 2 ||| down <<< 2 ||| left <<< 2 ||| cell.BOUNDARY

/-- The body of the double loop of `propagate_grid`: the streamed+collided
value written to `next_grid` at `(x, y)`. -/
def propagate_cell (g : Grid) (x y : Int) : Nat :=
  let up := g.get x (y + 1) &&& cell.DOWN
  let right := g.get (x + 1) y &&& cell.LEFT
  let down := g.get x (y - 1) &&& cell.UP
  let left := g.get (x - 1) y &&& cell.RIGHT
  resolve_collisions (up ||| right ||| down ||| left ||| (g.get x y &&& cell.BOUNDARY))

/-- Function `propagate_grid`: the next grid, each cell at flat index
`i = y * width + x` holding `propagate_cell` of the current grid (the
double loop writes exactly these indices of the equally-sized
`next_grid`). -/
def propagate_grid (g : Grid) : Grid :=
  ⟨(List.range (g.width * g.height)).map
      (fun i => propagate_cell g ((i % g.width : Nat) : Int) ((i / g.width : Nat) : Int)),
    g.width, g.height⟩

/-- The analysis block (`struct Block`). -/
structure Block where
  up : Nat
  right : Nat
  down : Nat
  left : Nat
  boundary : Nat
  x : Nat
  y : Nat
  block_size : Nat
deriving DecidableEq

/-- Entry `counter[i]` accumulated by the loops of `Block::new`: the inner
`bit = cell & 1; cell >>= 1` loop extracts bit `i` of each member cell on
its `i`-th turn, so `counter[i]` is the number of member cells whose bit
`i` is set. -/
def blockCounter (x y block_size : Nat) (g : Grid) (i : Nat) : Nat :=
  Finset.sum (Finset.range block_size) fun cx =>
    Finset.sum (Finset.range block_size) fun cy =>
      ((g.get ((block_size * x + cx : Nat) : Int)
          ((block_size * y + cy : Nat) : Int)).testBit i).toNat

/-- Constructor `Block::new`, with the source's field assignment
`up: counter[0], right: counter[1], down: counter[2], left: counter[3],
boundary: counter[4]` kept exactly as written. -/
def Block.new (x y block_size : Nat) (g : Grid) : Block :=
  ⟨blockCounter x y block_size g 0, blockCounter x y block_size g 1,
    blockCounter x y block_size g 2, blockCounter x y block_size g 3,
    blockCounter x y block_size g 4, x, y, block_size⟩

/-- Method `Block::total_particles`. -/
def Block.total_particles (b : Block) : Nat := b.up + b.right + b.down + b.left

/-- Function `block_colour_density_bw`; the `as u8` cast of the intensity
is `% 256`. -/
def block_colour_density_bw (block_x block_y : Nat) (g : Grid) (config : Config) :
    RGB8 :=
  let block := Block.new block_x block_y config.downscale g
  if block.boundary > 0 then RGB8.BOUNDARY
  else
    let val := (63 * block.total_particles / (config.downscale * config.downscale)) % 256
    RGB8.new val val val

/-- The per-block colour dispatch inside `generate_rgb_sequence`.
`block_colour_velocity_rgb` computes with `f64` (sqrt, atan2, powf), which
a shallow integer embedding cannot express, so the velocity policy's
colour is supplied as the parameter `velocity_colour`; every claim proved
about the buffer layout holds for an arbitrary such colour function. -/
def blockColour (velocity_colour : Nat → Nat → Grid → Config → RGB8)
    (block_x block_y : Nat) (g : Grid) (config : Config) : RGB8 :=
  match config.colouring with
  | Colouring.DensityBW => block_colour_density_bw block_x block_y g config
  | Colouring.VelocityColour => velocity_colour block_x block_y g config

/-- Function `generate_rgb_sequence`: `block_x` is the OUTER loop and
`block_y` the INNER loop; each iteration appends the three bytes of the
block's colour. -/
def generate_rgb_sequence (velocity_colour : Nat → Nat → Grid → Config → RGB8)
    (g : Grid) (config : Config) : List Nat :=
  (List.range (g.width / config.downscale)).flatMap fun block_x =>
    (List.range (g.height / config.downscale)).flatMap fun block_y =>
      (blockColour velocity_colour block_x block_y g config).as_array

/-- Modelled from the spec (section 4.4 / 6), for comparison with
`generate_rgb_sequence`: the buffer laid out row-major with respect to the
declared image width `grid-width / downscale` — consecutive pixel triples
of one declared image row correspond to one block row of the grid. -/
def generate_rgb_sequence_row_major_spec
    (velocity_colour : Nat → Nat → Grid → Config → RGB8)
    (g : Grid) (config : Config) : List Nat :=
  (List.range (g.height / config.downscale)).flatMap fun block_y =>
    (List.range (g.width / config.downscale)).flatMap fun block_x =>
      (blockColour velocity_colour block_x block_y g config).as_array

/-- Number of directional particles of a cell value: one per set flag
among UP (bit 3), RIGHT (bit 2), DOWN (bit 1), LEFT (bit 0). -/
def cellCount (v : Nat) : Nat :=
  (v.testBit 3).toNat + (v.testBit 2).toNat + (v.testBit 1).toNat + (v.testBit 0).toNat

/-- Total number of directional particles stored in the grid. -/
def Grid.totalParticles (g : Grid) : Nat :=
  Finset.sum (Finset.range g.height) fun y =>
    Finset.sum (Finset.range g.width) fun x =>
      cellCount (g.get (x : Int) (y : Int))

/-- The closed-box edge condition: every cell of the outermost ring has
the boundary flag (bit 4) set, and no outermost-ring cell carries the
directional flag that points out of the grid (DOWN at `y = 0`, UP at
`y = height-1`, LEFT at `x = 0`, RIGHT at `x = width-1`). -/
def edgeClosed (g : Grid) : Prop :=
  (∀ x, x < g.width →
    (g.get (x : Int) 0).testBit 4 = true ∧
    (g.get (x : Int) ((g.height : Int) - 1)).testBit 4 = true ∧
    (g.get (x : Int) 0).testBit 1 = false ∧
    (g.get (x : Int) ((g.height : Int) - 1)).testBit 3 = false) ∧
  (∀ y, y < g.height →
    (g.get 0 (y : Int)).testBit 4 = true ∧
    (g.get ((g.width : Int) - 1) (y : Int)).testBit 4 = true ∧
    (g.get 0 (y : Int)).testBit 0 = false ∧
    (g.get ((g.width : Int) - 1) (y : Int)).testBit 2 = false)

instance (g : Grid) : Decidable (edgeClosed g) := by
  unfold edgeClosed; infer_instance

/-- Configuration of the concrete 4×3 reflection scenario. -/
def cfg43 : Config := Config.new 4 3 1 1 1 Colouring.DensityBW

/-- A 4×3 grid whose one-cell-thick edges have just been painted by
`set_boundary_at_edge` (the two interior cells are empty). -/
def box43 : Grid := ⟨[16, 16, 16, 16, 16, 0, 0, 16, 16, 16, 16, 16], 4, 3⟩

/-- The 4×3 closed box with a single rightward-moving particle in the
interior cell adjacent to the right wall: edges painted by
`set_boundary_at_edge`, then the particle written with `set`. -/
def rightWallSetup : Option Grid :=
  ((Grid.new 4 3).set_boundary_at_edge cfg43).bind fun g => g.set? 2 1 cell.RIGHT

/-- A 2×2 grid, empty except that the cell at `(x, y) = (1, 0)` is FULL. -/
def c6Grid : Grid := ⟨[0, 15, 0, 0], 2, 2⟩

/-- Configuration for the scan-order scenario: downscale 1, density
colouring. -/
def c6Cfg : Config := Config.new 2 2 1 1 1 Colouring.DensityBW

/-- A constant stand-in for the (floating-point) velocity colouring,
unused under the density policy. -/
def constVC : Nat → Nat → Grid → Config → RGB8 := fun _ _ _ _ => RGB8.BOUNDARY

/-! Helper lemmas. -/

lemma get_oor (g : Grid) (x y : Int) (h : g.outOfRange x y) :
    g.get x y = cell.BOUNDARY := by
  unfold Grid.get
  exact if_pos h

lemma and_one (n : Nat) : n &&& 1 = (n.testBit 0).toNat := by
  have h := Nat.and_two_pow n 0
  simpa using h

lemma and_two (n : Nat) : n &&& 2 = (n.testBit 1).toNat * 2 := by
  exact Nat.and_two_pow n 1

lemma and_four (n : Nat) : n &&& 4 = (n.testBit 2).toNat * 4 := by
  exact Nat.and_two_pow n 2

lemma and_eight (n : Nat) : n &&& 8 = (n.testBit 3).toNat * 8 := by
  exact Nat.and_two_pow n 3

lemma and_sixteen (n : Nat) : n &&& 16 = (n.testBit 4).toNat * 16 := by
  exact Nat.and_two_pow n 4

/-- Streaming gathers one bit from each of the four neighbours (plus the
boundary bit of the cell itself); the collision step preserves the number
of directional flags of that five-bit value. -/
lemma cellCount_resolve_stream (b1 b0 b3 b2 b4 : Bool) :
    cellCount (resolve_collisions
      (b1.toNat * 2 ||| b0.toNat ||| b3.toNat * 8 ||| b2.toNat * 4 ||| b4.toNat * 16)) =
      b3.toNat + b2.toNat + b1.toNat + b0.toNat := by
  revert b1 b0 b3 b2 b4
  decide

/-- Bit bookkeeping of `resolve_collisions` on a five-bit streamed value:
the boundary bit passes through, and on a boundary cell each directional
bit of the result is the opposite streamed bit. -/
lemma resolve_stream_bits (b1 b0 b3 b2 b4 : Bool) :
    (resolve_collisions
      (b1.toNat * 2 ||| b0.toNat ||| b3.toNat * 8 ||| b2.toNat * 4 ||| b4.toNat * 16)).testBit 4 = b4 ∧
    (b4 = true →
      (resolve_collisions
        (b1.toNat * 2 ||| b0.toNat ||| b3.toNat * 8 ||| b2.toNat * 4 ||| b4.toNat * 16)).testBit 1 = b3 ∧
      (resolve_collisions
        (b1.toNat * 2 ||| b0.toNat ||| b3.toNat * 8 ||| b2.toNat * 4 ||| b4.toNat * 16)).testBit 3 = b1 ∧
      (resolve_collisions
        (b1.toNat * 2 ||| b0.toNat ||| b3.toNat * 8 ||| b2.toNat * 4 ||| b4.toNat * 16)).testBit 0 = b2 ∧
      (resolve_collisions
        (b1.toNat * 2 ||| b0.toNat ||| b3.toNat * 8 ||| b2.toNat * 4 ||| b4.toNat * 16)).testBit 2 = b0) := by
  revert b1 b0 b3 b2 b4
  decide

/-- The number of particles landing in a cell is one per occupied incoming
direction of the four neighbours. -/
lemma cellCount_propagate_cell (g : Grid) (x y : Int) :
    cellCount (propagate_cell g x y) =
      ((g.get x (y - 1)).testBit 3).toNat + ((g.get (x - 1) y).testBit 2).toNat +
      ((g.get x (y + 1)).testBit 1).toNat + ((g.get (x + 1) y).testBit 0).toNat := by
  simp only [propagate_cell, cell.DOWN, cell.LEFT, cell.UP, cell.RIGHT, cell.BOUNDARY]
  rw [and_two, and_one, and_eight, and_four, and_sixteen]
  exact cellCount_resolve_stream _ _ _ _ _

/-- Bits of the propagated cell value, in terms of the current grid. -/
lemma propagate_cell_bits (g : Grid) (x y : Int) :
    (propagate_cell g x y).testBit 4 = (g.get x y).testBit 4 ∧
    ((g.get x y).testBit 4 = true →
      (propagate_cell g x y).testBit 1 = (g.get x (y - 1)).testBit 3 ∧
      (propagate_cell g x y).testBit 3 = (g.get x (y + 1)).testBit 1 ∧
      (propagate_cell g x y).testBit 0 = (g.get (x - 1) y).testBit 2 ∧
      (propagate_cell g x y).testBit 2 = (g.get (x + 1) y).testBit 0) := by
  simp only [propagate_cell, cell.DOWN, cell.LEFT, cell.UP, cell.RIGHT, cell.BOUNDARY]
  rw [and_two, and_one, and_eight, and_four, and_sixteen]
  exact resolve_stream_bits _ _ _ _ _

/-- Reading the next grid at an in-range coordinate gives exactly the
per-cell update of the current grid. -/
lemma propagate_grid_get (g : Grid) (x y : Int) (hx0 : 0 ≤ x)
    (hxw : x < (g.width : Int)) (hy0 : 0 ≤ y) (hyh : y < (g.height : Int)) :
    (propagate_grid g).get x y = propagate_cell g x y := by
  have hw : 0 < g.width := by omega
  have hxw2 : x.toNat < g.width := by omega
  have hyh2 : y.toNat < g.height := by omega
  have hidx : y.toNat * g.width + x.toNat < g.width * g.height := by
    calc y.toNat * g.width + x.toNat < y.toNat * g.width + g.width := by omega
      _ = (y.toNat + 1) * g.width := by ring
      _ ≤ g.height * g.width := Nat.mul_le_mul_right g.width (by omega)
      _ = g.width * g.height := Nat.mul_comm _ _
  have hWp : (propagate_grid g).width = g.width := rfl
  have hHp : (propagate_grid g).height = g.height := rfl
  have hnotoor : ¬ (propagate_grid g).outOfRange x y := by
    unfold Grid.outOfRange
    rw [hWp, hHp]
    omega
  unfold Grid.get
  rw [if_neg hnotoor]
  show ((List.range (g.width * g.height)).map
      (fun i => propagate_cell g ((i % g.width : Nat) : Int) ((i / g.width : Nat) : Int))).getD
      (y.toNat * g.width + x.toNat) cell.EMPTY = propagate_cell g x y
  have hmod : (y.toNat * g.width + x.toNat) % g.width = x.toNat := by
    rw [Nat.mul_comm y.toNat g.width, Nat.mul_add_mod, Nat.mod_eq_of_lt hxw2]
  have hdiv : (y.toNat * g.width + x.toNat) / g.width = y.toNat := by
    rw [Nat.mul_comm y.toNat g.width, Nat.mul_add_div hw, Nat.div_eq_of_lt hxw2, Nat.add_zero]
  rw [List.getD_eq_getElem?_getD, List.getElem?_map, List.getElem?_range hidx]
  simp only [Option.map_some', Option.getD_some, hmod, hdiv,
    Int.toNat_of_nonneg hx0, Int.toNat_of_nonneg hy0]

/-- Width and height are unchanged by iterating the update. -/
lemma propagate_iterate_dims (g : Grid) (n : Nat) :
    (propagate_grid^[n] g).width = g.width ∧ (propagate_grid^[n] g).height = g.height := by
  induction n with
  | zero => exact ⟨rfl, rfl⟩
  | succ n ih =>
      rw [Function.iterate_succ_apply']
      exact ih

/-- Telescoping a sum of `F` sampled one step to the right: nothing enters
from position `n` (out of range) and nothing leaves position `0`. -/
lemma shift_sum_add (F : Int → Nat) (n : Nat) (h0 : F 0 = 0) (hn : F (n : Int) = 0) :
    (Finset.sum (Finset.range n) fun k => F ((k : Int) + 1)) =
      Finset.sum (Finset.range n) fun k => F (k : Int) := by
  have hc0 : F ((0 : Nat) : Int) = 0 := by simpa using h0
  calc (Finset.sum (Finset.range n) fun k => F ((k : Int) + 1))
      = Finset.sum (Finset.range n) fun k => F (((k + 1 : Nat) : Int)) := by
        apply Finset.sum_congr rfl
        intro k _
        norm_cast
    _ = (Finset.sum (Finset.range n) fun k => F (((k + 1 : Nat) : Int))) + F ((0 : Nat) : Int) := by
        rw [hc0, Nat.add_zero]
    _ = Finset.sum (Finset.range (n + 1)) fun k => F (k : Int) :=
        (Finset.sum_range_succ' (fun k => F (k : Int)) n).symm
    _ = (Finset.sum (Finset.range n) fun k => F (k : Int)) + F (n : Int) :=
        Finset.sum_range_succ (fun k => F (k : Int)) n
    _ = Finset.sum (Finset.range n) fun k => F (k : Int) := by rw [hn, Nat.add_zero]

/-- Telescoping a sum of `F` sampled one step to the left: nothing enters
from position `-1` (out of range) and nothing leaves position `n - 1`. -/
lemma shift_sum_sub (F : Int → Nat) (n : Nat) (hneg : F (-1) = 0)
    (hn : F ((n : Int) - 1) = 0) :
    (Finset.sum (Finset.range n) fun k => F ((k : Int) - 1)) =
      Finset.sum (Finset.range n) fun k => F (k : Int) := by
  have hcneg : F (((0 : Nat) : Int) - 1) = 0 := by simpa using hneg
  calc (Finset.sum (Finset.range n) fun k => F ((k : Int) - 1))
      = (Finset.sum (Finset.range n) fun k => F ((k : Int) - 1)) + F ((n : Int) - 1) := by
        rw [hn, Nat.add_zero]
    _ = Finset.sum (Finset.range (n + 1)) fun k => F ((k : Int) - 1) :=
        (Finset.sum_range_succ (fun k => F ((k : Int) - 1)) n).symm
    _ = (Finset.sum (Finset.range n) fun k => F (((k + 1 : Nat) : Int) - 1)) +
          F (((0 : Nat) : Int) - 1) :=
        Finset.sum_range_succ' (fun k => F ((k : Int) - 1)) n
    _ = Finset.sum (Finset.range n) fun k => F (((k + 1 : Nat) : Int) - 1) := by
        rw [hcneg, Nat.add_zero]
    _ = Finset.sum (Finset.range n) fun k => F (k : Int) := by
        apply Finset.sum_congr rfl
        intro k _
        congr 1
        push_cast
        ring

/-- Under the representation invariant, the flat index of an in-range
coordinate is inside the backing vector. -/
lemma index_lt (g : Grid) (x y : Int) (hwf : g.WF) (h : ¬ g.outOfRange x y) :
    y.toNat * g.width + x.toNat < g.grid.length := by
  unfold Grid.outOfRange at h
  have hx : x.toNat < g.width := by omega
  have hy : y.toNat < g.height := by omega
  rw [hwf]
  calc y.toNat * g.width + x.toNat < y.toNat * g.width + g.width := by omega
    _ = (y.toNat + 1) * g.width := by ring
    _ ≤ g.height * g.width := Nat.mul_le_mul_right g.width (by omega)
    _ = g.width * g.height := Nat.mul_comm _ _

/-- A successful `set` changes neither the vector length nor the
dimensions. -/
lemma set_dims (g : Grid) (x y : Int) (v : Nat) (g2 : Grid)
    (h : g.set? x y v = some g2) :
    g2.grid.length = g.grid.length ∧ g2.width = g.width ∧ g2.height = g.height := by
  unfold Grid.set? at h
  by_cases hoor : g.outOfRange x y
  · rw [if_pos hoor] at h
    exact Option.noConfusion h
  · rw [if_neg hoor] at h
    cases h
    exact ⟨List.length_set _ _ _, rfl, rfl⟩

/-- A successful fold of `set` writes changes neither the vector length
nor the dimensions. -/
lemma foldlM_set_dims (L : List (Int × Int)) (step : Grid → Int × Int → Option Grid)
    (hstep : ∀ gr c g2, step gr c = some g2 →
      g2.grid.length = gr.grid.length ∧ g2.width = gr.width ∧ g2.height = gr.height) :
    ∀ (g g2 : Grid), L.foldlM step g = some g2 →
      g2.grid.length = g.grid.length ∧ g2.width = g.width ∧ g2.height = g.height := by
  induction L with
  | nil =>
      intro g g2 h
      rw [List.foldlM_nil] at h
      cases h
      exact ⟨rfl, rfl, rfl⟩
  | cons c L ih =>
      intro g g2 h
      rw [List.foldlM_cons] at h
      cases hs : step g c with
      | none => rw [hs] at h; exact Option.noConfusion h
      | some g1 =>
          rw [hs] at h
          have h2 : L.foldlM step g1 = some g2 := by simpa using h
          obtain ⟨e1, e2, e3⟩ := ih g1 g2 h2
          obtain ⟨f1, f2, f3⟩ := hstep g c g1 hs
          exact ⟨e1.trans f1, e2.trans f2, e3.trans f3⟩

/-- Dimension preservation transports the representation invariant. -/
lemma dims_WF {g g2 : Grid}
    (hd : g2.grid.length = g.grid.length ∧ g2.width = g.width ∧ g2.height = g.height)
    (hwf : g.WF) : g2.WF := by
  unfold Grid.WF at hwf ⊢
  rw [hd.1, hd.2.1, hd.2.2]
  exact hwf

/-- A successful `fill_boundary` changes neither length nor dimensions. -/
lemma fill_boundary_dims (g : Grid) (a b : Int) (w h : Nat) (g2 : Grid)
    (hf : g.fill_boundary a b w h = some g2) :
    g2.grid.length = g.grid.length ∧ g2.width = g.width ∧ g2.height = g.height :=
  foldlM_set_dims _ _ (fun gr c g3 hc => set_dims gr c.1 c.2 cell.BOUNDARY g3 hc) g g2 hf

/-- A successful `fill_region` changes neither length nor dimensions. -/
lemma fill_region_dims (g : Grid) (a b : Int) (w h : Nat)
    (draw : Int → Int → Bool × Bool × Bool × Bool) (g2 : Grid)
    (hf : g.fill_region a b w h draw = some g2) :
    g2.grid.length = g.grid.length ∧ g2.width = g.width ∧ g2.height = g.height :=
  foldlM_set_dims _ _ (fun gr c g3 hc => set_dims gr c.1 c.2 _ g3 hc) g g2 hf

/-- Length of a concatenation of uniformly sized chunks over a range. -/
lemma flatMap_range_length {α : Type} (f : Nat → List α) (L n : Nat)
    (h : ∀ i, (f i).length = L) : ((List.range n).flatMap f).length = n * L := by
  induction n with
  | zero => simp
  | succ n ih =>
      rw [List.range_succ, List.flatMap_append, List.length_append, ih]
      simp [h n]
      ring

/-- Indexing into a concatenation of uniformly sized chunks over a range:
entry `L * i + k` is entry `k` of chunk `i`. -/
lemma flatMap_range_getElem {α : Type} (L : Nat) :
    ∀ (i : Nat) (f : Nat → List α), (∀ j, (f j).length = L) →
      ∀ (n k : Nat), i < n → k < L →
        ((List.range n).flatMap f)[L * i + k]? = (f i)[k]? := by
  intro i
  induction i with
  | zero =>
      intro f hf n k hn hk
      obtain ⟨m, rfl⟩ : ∃ m, n = m + 1 := ⟨n - 1, by omega⟩
      rw [List.range_succ_eq_map, List.flatMap_cons]
      rw [Nat.mul_zero, Nat.zero_add]
      rw [List.getElem?_append_left (by rw [hf 0]; exact hk)]
  | succ i ih =>
      intro f hf n k hn hk
      obtain ⟨m, rfl⟩ : ∃ m, n = m + 1 := ⟨n - 1, by omega⟩
      rw [List.range_succ_eq_map, List.flatMap_cons]
      have hlen : (f 0).length = L := hf 0
      have hexp : L * (i + 1) = L * i + L := by ring
      have hge : (f 0).length ≤ L * (i + 1) + k := by
        rw [hlen, hexp]
        omega
      rw [List.getElem?_append_right hge]
      have hmap : (List.map Nat.succ (List.range m)).flatMap f =
          (List.range m).flatMap fun j => f (j + 1) := by
        rw [List.flatMap_map]
      rw [hmap]
      have hidx : L * (i + 1) + k - (f 0).length = L * i + k := by
        rw [hlen, hexp]
        omega
      rw [hidx]
      exact ih (fun j => f (j + 1)) (fun j => hf (j + 1)) m k (by omega) hk

/-! The claims. -/

/-- C1: for every one of the 16 four-bit occupation patterns (boundary
flag clear), `resolve_collisions` preserves the number of directional
flags set — collision resolution conserves mass. -/
theorem collision_mass_conserved :
    ∀ v, v < 16 → cellCount (resolve_collisions v) = cellCount v := by
  decide

/-- Witness for C1 at the head-on pattern Up+Down. -/
theorem collision_mass_conserved_witness :
    (10 : Nat) < 16 ∧ cellCount (resolve_collisions 10) = cellCount 10 :=
  ⟨by decide, collision_mass_conserved 10 (by decide)⟩

/-- C2: the complete collision table for non-boundary cells: exactly
Up+Down swaps to exactly Left+Right, exactly Left+Right swaps to exactly
Up+Down, and every other occupation pattern is unchanged. -/
theorem collision_table_complete :
    ∀ v, v < 32 → v &&& cell.BOUNDARY = 0 →
      resolve_collisions v =
        if v = cell.UP ||| cell.DOWN then cell.LEFT ||| cell.RIGHT
        else if v = cell.LEFT ||| cell.RIGHT then cell.UP ||| cell.DOWN
        else v := by
  decide

/-- Witness for C2 at the Up+Down pattern. -/
theorem collision_table_complete_witness :
    (10 : Nat) < 32 ∧ (10 : Nat) &&& cell.BOUNDARY = 0 ∧
      resolve_collisions 10 =
        if (10 : Nat) = cell.UP ||| cell.DOWN then cell.LEFT ||| cell.RIGHT
        else if (10 : Nat) = cell.LEFT ||| cell.RIGHT then cell.UP ||| cell.DOWN
        else 10 :=
  ⟨by decide, by decide, collision_table_complete 10 (by decide) (by decide)⟩

/-- C8: `resolve_collisions` is an involution on well-formed five-bit
cell values, non-boundary and boundary alike. -/
theorem resolve_collisions_involution :
    ∀ v, v < 32 → resolve_collisions (resolve_collisions v) = v := by
  decide

/-- Witness for C8 at the boundary cell carrying an Up particle. -/
theorem resolve_collisions_involution_witness :
    (24 : Nat) < 32 ∧ resolve_collisions (resolve_collisions 24) = 24 :=
  ⟨by decide, resolve_collisions_involution 24 (by decide)⟩

/-- C4 (code bug): `Block::new` assigns `up: counter[0]` but `counter[0]`
counts bit 0, which is the LEFT flag (UP is bit 3).  On a 1×1 block whose
single cell carries exactly the Up flag, the code yields `up = 0` and
`left = 1`; the claim (and the field names) require `up = 1`, `left = 0`.
Dually a single Left-flagged cell yields `up = 1`.  The boundary counter
(bit 4) is correct. -/
theorem block_new_counts_swapped :
    (Block.new 0 0 1 ⟨[cell.UP], 1, 1⟩).up = 0 ∧
    (Block.new 0 0 1 ⟨[cell.UP], 1, 1⟩).left = 1 ∧
    (Block.new 0 0 1 ⟨[cell.LEFT], 1, 1⟩).up = 1 ∧
    (Block.new 0 0 1 ⟨[cell.LEFT], 1, 1⟩).left = 0 ∧
    (Block.new 0 0 1 ⟨[cell.UP], 1, 1⟩).boundary = 0 ∧
    (Block.new 0 0 1 ⟨[cell.BOUNDARY], 1, 1⟩).boundary = 1 := by
  decide

/-- C5 (counterexample): a 2×2 block of FULL cells with no boundary
renders with intensity 252, not 63: `63 * (4·b²) / b² = 252`. -/
theorem density_full_block_not_63 :
    block_colour_density_bw 0 0 ⟨[15, 15, 15, 15], 2, 2⟩ (Config.new 2 2 2 1 1 Colouring.DensityBW) =
      RGB8.new 252 252 252 ∧
    block_colour_density_bw 0 0 ⟨[15, 15, 15, 15], 2, 2⟩ (Config.new 2 2 2 1 1 Colouring.DensityBW) ≠
      RGB8.new 63 63 63 := by
  decide

/-- C5 (amended): under the density colouring policy, a b×b block with no
boundary cell whose member cells are all FULL renders with intensity 252
replicated to each of R, G and B. -/
theorem density_full_block_intensity (g : Grid) (cfg : Config) (bx b_y : Nat)
    (hd : 0 < cfg.downscale)
    (hfull : ∀ cx, cx < cfg.downscale → ∀ cy, cy < cfg.downscale →
      g.get ((cfg.downscale * bx + cx : Nat) : Int) ((cfg.downscale * b_y + cy : Nat) : Int) =
        cell.FULL) :
    block_colour_density_bw bx b_y g cfg = RGB8.new 252 252 252 := by
  have hcnt : ∀ i, blockCounter bx b_y cfg.downscale g i =
      (cell.FULL.testBit i).toNat * (cfg.downscale * cfg.downscale) := by
    intro i
    unfold blockCounter
    rw [Finset.sum_congr rfl fun cx hcx => Finset.sum_congr rfl fun cy hcy => by
      rw [hfull cx (Finset.mem_range.mp hcx) cy (Finset.mem_range.mp hcy)]]
    simp [Finset.sum_const, Finset.card_range]
    ring
  have hdd : 0 < cfg.downscale * cfg.downscale := Nat.mul_pos hd hd
  have h0 : (cell.FULL.testBit 0).toNat = 1 := by decide
  have h1 : (cell.FULL.testBit 1).toNat = 1 := by decide
  have h2 : (cell.FULL.testBit 2).toNat = 1 := by decide
  have h3 : (cell.FULL.testBit 3).toNat = 1 := by decide
  have h4 : (cell.FULL.testBit 4).toNat = 0 := by decide
  unfold block_colour_density_bw Block.total_particles Block.new
  simp only [hcnt, h0, h1, h2, h3, h4, Nat.zero_mul, Nat.one_mul]
  rw [if_neg (by omega : ¬ ((0 : Nat) > 0))]
  have harith : 63 * (cfg.downscale * cfg.downscale + cfg.downscale * cfg.downscale +
      cfg.downscale * cfg.downscale + cfg.downscale * cfg.downscale) =
      252 * (cfg.downscale * cfg.downscale) := by ring
  rw [harith, Nat.mul_div_cancel 252 hdd]

/-- Witness for C5 (amended) on a concrete 2×2 FULL block. -/
theorem density_full_block_intensity_witness :
    block_colour_density_bw 0 0 ⟨[15, 15, 15, 15], 2, 2⟩ (Config.new 2 2 2 1 1 Colouring.DensityBW) =
      RGB8.new 252 252 252 :=
  density_full_block_intensity ⟨[15, 15, 15, 15], 2, 2⟩ (Config.new 2 2 2 1 1 Colouring.DensityBW)
    0 0 (by decide) (by decide)

/-- C7: in the 4×3 closed box with a single rightward particle adjacent to
the right wall, one step absorbs and reflects the particle inside the wall
cell (Left flag + boundary flag), the next step puts it one cell inside
the domain moving left (and empties the wall cell again), and at no step
does any cell at `x ≥ width` hold a directional particle. -/
theorem edge_reflection :
    rightWallSetup.map (fun g => (propagate_grid g).get 3 1) = some (cell.LEFT ||| cell.BOUNDARY) ∧
    rightWallSetup.map (fun g => (propagate_grid g).get 2 1) = some cell.EMPTY ∧
    rightWallSetup.map (fun g => (propagate_grid (propagate_grid g)).get 2 1) = some cell.LEFT ∧
    rightWallSetup.map (fun g => (propagate_grid (propagate_grid g)).get 3 1) = some cell.BOUNDARY ∧
    ∀ (g : Grid) (n : Nat) (x y : Int), (g.width : Int) ≤ x →
      (propagate_grid^[n] g).get x y &&& cell.FULL = 0 := by
  refine ⟨by decide, by decide, by decide, by decide, ?_⟩
  intro g n x y hx
  have hdims := propagate_iterate_dims g n
  have hoor : (propagate_grid^[n] g).outOfRange x y := by
    unfold Grid.outOfRange
    rw [hdims.1]
    exact Or.inr (Or.inl hx)
  rw [get_oor _ _ _ hoor]
  decide

/-- Witness for C7's containment conjunct at a concrete grid and step. -/
theorem edge_reflection_witness :
    ((Grid.new 4 3).width : Int) ≤ 7 ∧
      (propagate_grid^[2] (Grid.new 4 3)).get 7 1 &&& cell.FULL = 0 :=
  ⟨by decide, edge_reflection.2.2.2.2 (Grid.new 4 3) 2 7 1 (by decide)⟩

/-- C3: `Grid::get` is total over all integer coordinates: outside
`[0,width)×[0,height)` it returns the synthetic boundary cell — whose four
directional flags are zero and whose boundary flag is set — and inside it
returns the cell stored at flat index `y * width + x`, the read always
succeeding (no error path) under the representation invariant. -/
theorem grid_get_total (g : Grid) (hwf : g.WF) (x y : Int) :
    (g.outOfRange x y → g.get? x y = some cell.BOUNDARY) ∧
    (¬ g.outOfRange x y →
      g.get? x y = g.grid.get? (y.toNat * g.width + x.toNat) ∧
      g.get? x y = some (g.get x y)) ∧
    (cell.BOUNDARY &&& cell.FULL = 0 ∧ cell.BOUNDARY.testBit 4 = true) := by
  refine ⟨?_, ?_, by decide⟩
  · intro h
    unfold Grid.get?
    rw [if_pos h]
  · intro h
    have hidx : y.toNat * g.width + x.toNat < g.grid.length := index_lt g x y hwf h
    constructor
    · unfold Grid.get?
      rw [if_neg h]
    · unfold Grid.get? Grid.get
      rw [if_neg h, if_neg h, List.get?_eq_getElem?, List.getD_eq_getElem?_getD,
        List.getElem?_eq_getElem hidx]
      rfl

/-- Witness for C3 at a concrete well-formed grid and an out-of-range
coordinate. -/
theorem grid_get_total_witness :
    (⟨[1, 2, 3, 4, 5, 6], 3, 2⟩ : Grid).get? (-1) 0 = some cell.BOUNDARY :=
  (grid_get_total ⟨[1, 2, 3, 4, 5, 6], 3, 2⟩ (by decide) (-1) 0).1 (by decide)

/-- C10: `Grid::new` establishes the representation invariant
`grid.len() = width * height`; `set`, `fill_boundary`, `fill_region` and
`set_boundary_at_edge` preserve it whenever they succeed; `set` panics
(returns `none`) exactly when the coordinate is out of range; and under
the invariant `get` never panics (`Grid.get?` is always `some`). -/
theorem grid_invariants :
    (∀ w h, (Grid.new w h).WF) ∧
    (∀ (g : Grid) (x y : Int) (v : Nat), g.set? x y v = none ↔ g.outOfRange x y) ∧
    (∀ (g : Grid) (x y : Int) (v : Nat) (g2 : Grid), g.WF → g.set? x y v = some g2 → g2.WF) ∧
    (∀ (g : Grid) (a b : Int) (w h : Nat) (g2 : Grid), g.WF →
      g.fill_boundary a b w h = some g2 → g2.WF) ∧
    (∀ (g : Grid) (a b : Int) (w h : Nat) (draw : Int → Int → Bool × Bool × Bool × Bool)
      (g2 : Grid), g.WF → g.fill_region a b w h draw = some g2 → g2.WF) ∧
    (∀ (g : Grid) (cfg : Config) (g2 : Grid), g.WF →
      g.set_boundary_at_edge cfg = some g2 → g2.WF) ∧
    (∀ (g : Grid) (x y : Int), g.WF → (g.get? x y).isSome) := by
  refine ⟨?_, ?_, ?_, ?_, ?_, ?_, ?_⟩
  · intro w h
    unfold Grid.WF Grid.new
    exact List.length_replicate _ _
  · intro g x y v
    unfold Grid.set?
    by_cases h : g.outOfRange x y
    · simp [h]
    · simp [h]
  · intro g x y v g2 hwf hs
    exact dims_WF (set_dims g x y v g2 hs) hwf
  · intro g a b w h g2 hwf hf
    exact dims_WF (fill_boundary_dims g a b w h g2 hf) hwf
  · intro g a b w h draw g2 hwf hf
    exact dims_WF (fill_region_dims g a b w h draw g2 hf) hwf
  · intro g cfg g2 hwf hs
    unfold Grid.set_boundary_at_edge at hs
    rw [Option.bind_eq_some] at hs
    obtain ⟨ga, h1, hs⟩ := hs
    rw [Option.bind_eq_some] at hs
    obtain ⟨gb, h2, hs⟩ := hs
    rw [Option.bind_eq_some] at hs
    obtain ⟨gc, h3, h4⟩ := hs
    have w1 := dims_WF (fill_boundary_dims _ _ _ _ _ _ h1) hwf
    have w2 := dims_WF (fill_boundary_dims _ _ _ _ _ _ h2) w1
    have w3 := dims_WF (fill_boundary_dims _ _ _ _ _ _ h3) w2
    exact dims_WF (fill_boundary_dims _ _ _ _ _ _ h4) w3
  · intro g x y hwf
    unfold Grid.get?
    by_cases h : g.outOfRange x y
    · rw [if_pos h]
      rfl
    · rw [if_neg h, List.get?_eq_getElem?, List.getElem?_eq_getElem (index_lt g x y hwf h)]
      rfl

/-- C6 (counterexample): the RGB buffer is NOT row-major with respect to
the declared image width.  On a 2×2 grid with downscale 1 whose only
occupied block is at grid position `(block_x, block_y) = (1, 0)`, row-major
order would put its bright pixel second in the buffer, but the code (outer
loop over `block_x`, inner over `block_y`) puts it third. -/
theorem rgb_sequence_not_row_major :
    generate_rgb_sequence constVC c6Grid c6Cfg =
      [0, 0, 0, 0, 0, 0, 252, 252, 252, 0, 0, 0] ∧
    generate_rgb_sequence_row_major_spec constVC c6Grid c6Cfg =
      [0, 0, 0, 252, 252, 252, 0, 0, 0, 0, 0, 0] ∧
    generate_rgb_sequence constVC c6Grid c6Cfg ≠
      generate_rgb_sequence_row_major_spec constVC c6Grid c6Cfg := by
  decide

/-- C6 (amended): the buffer handed to the encoder contains exactly
`(width/downscale) * (height/downscale) * 3` bytes, but it is laid out
block-COLUMN-major: the pixel triple at buffer position
`block_x * (height/downscale) + block_y` is the colour of block
`(block_x, block_y)`, so consecutive pixel triples of one declared image
row correspond to one block column of the grid. -/
theorem rgb_sequence_column_major (vc : Nat → Nat → Grid → Config → RGB8)
    (g : Grid) (cfg : Config)
    (_hw : cfg.downscale ∣ g.width) (_hh : cfg.downscale ∣ g.height) :
    (generate_rgb_sequence vc g cfg).length =
      g.width / cfg.downscale * (g.height / cfg.downscale) * 3 ∧
    ∀ bx b_y k, bx < g.width / cfg.downscale → b_y < g.height / cfg.downscale → k < 3 →
      (generate_rgb_sequence vc g cfg)[3 * (bx * (g.height / cfg.downscale) + b_y) + k]? =
        (blockColour vc bx b_y g cfg).as_array[k]? := by
  have hinner : ∀ bx, ((List.range (g.height / cfg.downscale)).flatMap fun b_y =>
      (blockColour vc bx b_y g cfg).as_array).length = g.height / cfg.downscale * 3 :=
    fun bx => flatMap_range_length _ 3 _ (fun _ => rfl)
  constructor
  · show ((List.range (g.width / cfg.downscale)).flatMap _).length = _
    rw [flatMap_range_length _ (g.height / cfg.downscale * 3) _ hinner]
    ring
  · intro bx b_y k hbx hby hk
    have hidx : 3 * (bx * (g.height / cfg.downscale) + b_y) + k =
        g.height / cfg.downscale * 3 * bx + (3 * b_y + k) := by ring
    rw [hidx]
    have step1 := flatMap_range_getElem (g.height / cfg.downscale * 3) bx
      (fun bx => (List.range (g.height / cfg.downscale)).flatMap fun b_y =>
        (blockColour vc bx b_y g cfg).as_array)
      hinner (g.width / cfg.downscale) (3 * b_y + k) hbx (by omega)
    have step2 := flatMap_range_getElem 3 b_y
      (fun b_y => (blockColour vc bx b_y g cfg).as_array)
      (fun _ => rfl) (g.height / cfg.downscale) k hby hk
    exact step1.trans step2

/-- Witness for C6 (amended) on the concrete 2×2 scenario. -/
theorem rgb_sequence_column_major_witness :
    (generate_rgb_sequence constVC c6Grid c6Cfg).length =
      c6Grid.width / c6Cfg.downscale * (c6Grid.height / c6Cfg.downscale) * 3 ∧
    (generate_rgb_sequence constVC c6Grid c6Cfg)[3 * (1 * (c6Grid.height / c6Cfg.downscale) + 0) + 0]? =
      (blockColour constVC 1 0 c6Grid c6Cfg).as_array[0]? :=
  ⟨(rgb_sequence_column_major constVC c6Grid c6Cfg (by decide) (by decide)).1,
    (rgb_sequence_column_major constVC c6Grid c6Cfg (by decide) (by decide)).2 1 0 0
      (by decide) (by decide) (by decide)⟩

/-- Witness for C10 at concrete grids and coordinates. -/
theorem grid_invariants_witness :
    (Grid.new 2 3).WF ∧
    ((Grid.new 2 3).set? 5 0 7 = none ↔ (Grid.new 2 3).outOfRange 5 0) ∧
    ((Grid.new 2 3).get? 1 2).isSome :=
  ⟨grid_invariants.1 2 3, grid_invariants.2.1 (Grid.new 2 3) 5 0 7,
    grid_invariants.2.2.2.2.2.2 (Grid.new 2 3) 1 2 (by decide)⟩

/-- C9: in a closed box — every cell of the outermost ring is a boundary
cell and no ring cell carries the directional flag pointing out of the
grid — one `propagate_grid` step conserves the total number of directional
particles (streaming, collision and wall reflection neither create nor
destroy particles), and the resulting grid satisfies the same edge
condition again; the condition holds in particular right after
`set_boundary_at_edge`, shown here on the 4×3 box. -/
theorem closed_box_conservation :
    (∀ g : Grid, edgeClosed g →
      (propagate_grid g).totalParticles = g.totalParticles ∧
      edgeClosed (propagate_grid g)) ∧
    (∀ g : Grid, (Grid.new 4 3).set_boundary_at_edge cfg43 = some g → edgeClosed g) := by
  constructor
  · intro g hedge
    obtain ⟨hrow, hcol⟩ := hedge
    have hb0 : cell.BOUNDARY.testBit 0 = false := by decide
    have hb1 : cell.BOUNDARY.testBit 1 = false := by decide
    have hb2 : cell.BOUNDARY.testBit 2 = false := by decide
    have hb3 : cell.BOUNDARY.testBit 3 = false := by decide
    have hb4 : cell.BOUNDARY.testBit 4 = true := by decide
    have gtop : ∀ x : Int, g.get x (g.height : Int) = cell.BOUNDARY := fun x =>
      get_oor _ _ _ (by unfold Grid.outOfRange; omega)
    have gbot : ∀ x : Int, g.get x (-1) = cell.BOUNDARY := fun x =>
      get_oor _ _ _ (by unfold Grid.outOfRange; omega)
    have gleft : ∀ y : Int, g.get (-1) y = cell.BOUNDARY := fun y =>
      get_oor _ _ _ (by unfold Grid.outOfRange; omega)
    have gright : ∀ y : Int, g.get (g.width : Int) y = cell.BOUNDARY := fun y =>
      get_oor _ _ _ (by unfold Grid.outOfRange; omega)
    have hWp : (propagate_grid g).width = g.width := rfl
    have hHp : (propagate_grid g).height = g.height := rfl
    constructor
    · -- conservation of the particle count
      unfold Grid.totalParticles
      rw [hWp, hHp]
      have hcell : ∀ y ∈ Finset.range g.height,
          (Finset.sum (Finset.range g.width) fun x =>
            cellCount ((propagate_grid g).get (x : Int) (y : Int))) =
          Finset.sum (Finset.range g.width) fun x =>
            (((g.get (x : Int) ((y : Int) - 1)).testBit 3).toNat +
              ((g.get ((x : Int) - 1) (y : Int)).testBit 2).toNat +
              ((g.get (x : Int) ((y : Int) + 1)).testBit 1).toNat +
              ((g.get ((x : Int) + 1) (y : Int)).testBit 0).toNat) := by
        intro y hy
        apply Finset.sum_congr rfl
        intro x hx
        rw [propagate_grid_get g (x : Int) (y : Int) (Int.natCast_nonneg x)
          (by exact_mod_cast Finset.mem_range.mp hx) (Int.natCast_nonneg y)
          (by exact_mod_cast Finset.mem_range.mp hy)]
        exact cellCount_propagate_cell g (x : Int) (y : Int)
      rw [Finset.sum_congr rfl hcell]
      simp only [Finset.sum_add_distrib]
      have hA : (Finset.sum (Finset.range g.height) fun y =>
          Finset.sum (Finset.range g.width) fun x =>
            ((g.get (x : Int) ((y : Int) - 1)).testBit 3).toNat) =
          Finset.sum (Finset.range g.height) fun y =>
            Finset.sum (Finset.range g.width) fun x =>
              ((g.get (x : Int) (y : Int)).testBit 3).toNat := by
        apply shift_sum_sub (fun t => Finset.sum (Finset.range g.width) fun x =>
          ((g.get (x : Int) t).testBit 3).toNat) g.height
        · exact Finset.sum_eq_zero fun x _ => by rw [gbot (x : Int), hb3]; rfl
        · exact Finset.sum_eq_zero fun x hx => by
            rw [(hrow x (Finset.mem_range.mp hx)).2.2.2]; rfl
      have hB : (Finset.sum (Finset.range g.height) fun y =>
          Finset.sum (Finset.range g.width) fun x =>
            ((g.get ((x : Int) - 1) (y : Int)).testBit 2).toNat) =
          Finset.sum (Finset.range g.height) fun y =>
            Finset.sum (Finset.range g.width) fun x =>
              ((g.get (x : Int) (y : Int)).testBit 2).toNat := by
        apply Finset.sum_congr rfl
        intro y hy
        apply shift_sum_sub (fun t => ((g.get t (y : Int)).testBit 2).toNat) g.width
        · rw [gleft (y : Int), hb2]
          rfl
        · rw [(hcol y (Finset.mem_range.mp hy)).2.2.2]
          rfl
      have hC : (Finset.sum (Finset.range g.height) fun y =>
          Finset.sum (Finset.range g.width) fun x =>
            ((g.get (x : Int) ((y : Int) + 1)).testBit 1).toNat) =
          Finset.sum (Finset.range g.height) fun y =>
            Finset.sum (Finset.range g.width) fun x =>
              ((g.get (x : Int) (y : Int)).testBit 1).toNat := by
        apply shift_sum_add (fun t => Finset.sum (Finset.range g.width) fun x =>
          ((g.get (x : Int) t).testBit 1).toNat) g.height
        · exact Finset.sum_eq_zero fun x hx => by
            rw [(hrow x (Finset.mem_range.mp hx)).2.2.1]; rfl
        · exact Finset.sum_eq_zero fun x _ => by rw [gtop (x : Int), hb1]; rfl
      have hD : (Finset.sum (Finset.range g.height) fun y =>
          Finset.sum (Finset.range g.width) fun x =>
            ((g.get ((x : Int) + 1) (y : Int)).testBit 0).toNat) =
          Finset.sum (Finset.range g.height) fun y =>
            Finset.sum (Finset.range g.width) fun x =>
              ((g.get (x : Int) (y : Int)).testBit 0).toNat := by
        apply Finset.sum_congr rfl
        intro y hy
        apply shift_sum_add (fun t => ((g.get t (y : Int)).testBit 0).toNat) g.width
        · rw [(hcol y (Finset.mem_range.mp hy)).2.2.1]
          rfl
        · rw [gright (y : Int), hb0]
          rfl
      rw [hA, hB, hC, hD]
      simp only [← Finset.sum_add_distrib]
      apply Finset.sum_congr rfl
      intro y _
      apply Finset.sum_congr rfl
      intro x _
      rfl
    · -- the edge condition is preserved
      refine ⟨fun x hx => ?_, fun y hy => ?_⟩
      · have hxw : x < g.width := hx
        by_cases hh : g.height = 0
        · have hoor0 : (propagate_grid g).outOfRange (x : Int) 0 := by
            unfold Grid.outOfRange
            rw [hWp, hHp]
            omega
          have hoor1 : (propagate_grid g).outOfRange (x : Int)
              (((propagate_grid g).height : Int) - 1) := by
            unfold Grid.outOfRange
            rw [hWp, hHp]
            omega
          exact ⟨by rw [get_oor _ _ _ hoor0]; exact hb4,
            by rw [get_oor _ _ _ hoor1]; exact hb4,
            by rw [get_oor _ _ _ hoor0]; exact hb1,
            by rw [get_oor _ _ _ hoor1]; exact hb3⟩
        · have hh1 : 0 < g.height := Nat.pos_of_ne_zero hh
          have hg0 : (propagate_grid g).get (x : Int) 0 = propagate_cell g (x : Int) 0 :=
            propagate_grid_get g (x : Int) 0 (Int.natCast_nonneg x)
              (by exact_mod_cast hxw) (by norm_num) (by exact_mod_cast hh1)
          have hg1 : (propagate_grid g).get (x : Int) (((propagate_grid g).height : Int) - 1) =
              propagate_cell g (x : Int) ((g.height : Int) - 1) := by
            rw [hHp]
            exact propagate_grid_get g (x : Int) ((g.height : Int) - 1)
              (Int.natCast_nonneg x) (by exact_mod_cast hxw) (by omega) (by omega)
          obtain ⟨e1, e2, e3, e4⟩ := (propagate_cell_bits g (x : Int) 0).2 (hrow x hxw).1
          obtain ⟨f1, f2, f3, f4⟩ :=
            (propagate_cell_bits g (x : Int) ((g.height : Int) - 1)).2 (hrow x hxw).2.1
          refine ⟨?_, ?_, ?_, ?_⟩
          · rw [hg0, (propagate_cell_bits g (x : Int) 0).1]
            exact (hrow x hxw).1
          · rw [hg1, (propagate_cell_bits g (x : Int) ((g.height : Int) - 1)).1]
            exact (hrow x hxw).2.1
          · rw [hg0, e1, show ((0 : Int) - 1) = (-1 : Int) from by norm_num, gbot (x : Int)]
            exact hb3
          · rw [hg1, f2, show ((g.height : Int) - 1 + 1) = (g.height : Int) from by ring,
              gtop (x : Int)]
            exact hb1
      · have hyh : y < g.height := hy
        by_cases hw : g.width = 0
        · have hoor0 : (propagate_grid g).outOfRange 0 (y : Int) := by
            unfold Grid.outOfRange
            rw [hWp, hHp]
            omega
          have hoor1 : (propagate_grid g).outOfRange (((propagate_grid g).width : Int) - 1)
              (y : Int) := by
            unfold Grid.outOfRange
            rw [hWp, hHp]
            omega
          exact ⟨by rw [get_oor _ _ _ hoor0]; exact hb4,
            by rw [get_oor _ _ _ hoor1]; exact hb4,
            by rw [get_oor _ _ _ hoor0]; exact hb0,
            by rw [get_oor _ _ _ hoor1]; exact hb2⟩
        · have hw1 : 0 < g.width := Nat.pos_of_ne_zero hw
          have hg0 : (propagate_grid g).get 0 (y : Int) = propagate_cell g 0 (y : Int) :=
            propagate_grid_get g 0 (y : Int) (by norm_num) (by exact_mod_cast hw1)
              (Int.natCast_nonneg y) (by exact_mod_cast hyh)
          have hg1 : (propagate_grid g).get (((propagate_grid g).width : Int) - 1) (y : Int) =
              propagate_cell g ((g.width : Int) - 1) (y : Int) := by
            rw [hWp]
            exact propagate_grid_get g ((g.width : Int) - 1) (y : Int)
              (by omega) (by omega) (Int.natCast_nonneg y) (by exact_mod_cast hyh)
          obtain ⟨e1, e2, e3, e4⟩ := (propagate_cell_bits g 0 (y : Int)).2 (hcol y hyh).1
          obtain ⟨f1, f2, f3, f4⟩ :=
            (propagate_cell_bits g ((g.width : Int) - 1) (y : Int)).2 (hcol y hyh).2.1
          refine ⟨?_, ?_, ?_, ?_⟩
          · rw [hg0, (propagate_cell_bits g 0 (y : Int)).1]
            exact (hcol y hyh).1
          · rw [hg1, (propagate_cell_bits g ((g.width : Int) - 1) (y : Int)).1]
            exact (hcol y hyh).2.1
          · rw [hg0, e3, show ((0 : Int) - 1) = (-1 : Int) from by norm_num, gleft (y : Int)]
            exact hb2
          · rw [hg1, f4, show ((g.width : Int) - 1 + 1) = (g.width : Int) from by ring,
              gright (y : Int)]
            exact hb0
  · intro g h
    have hbox : (Grid.new 4 3).set_boundary_at_edge cfg43 = some box43 := by decide
    rw [hbox] at h
    cases h
    decide

/-- Witness for C9 on the concrete 4×3 painted box. -/
theorem closed_box_conservation_witness :
    (propagate_grid box43).totalParticles = box43.totalParticles ∧
    edgeClosed (propagate_grid box43) :=
  closed_box_conservation.1 box43 (by decide)

end LGCA
